import Mathlib

/-!
Shallow embedding of the Multi-Agent-LLM-System-Failure-Educator repository
(src/agent.py, src/database.py, src/app.py) and proofs about its
query-routing and analytics-aggregation behaviour.

Python dictionaries are modelled as insertion-ordered association lists,
dictionary `.get` with a default as `Option.getD`, and the SQLite tables of
`database.py` as lists of rows with an autoincrement id counter.  The single
nondeterministic ingredient, `random.choice` over a nonempty scenario list,
is modelled by threading an arbitrary natural number `pick` and indexing with
`pick % length`.  Python code that can raise (the router evaluates
`category.lower()` on a possibly-`None` dictionary key) is modelled with
`Except String`.
-/

/-- Substring test on `Char` lists: does `needle` occur contiguously in the
list?  (`"x" in y` for Python strings.) -/
def isSubList (needle : List Char) : List Char → Bool
  | [] => needle.isEmpty
  | c :: rest => needle.isPrefixOf (c :: rest) || isSubList needle rest

/-- Python's `needle in hay` on strings. -/
def strContains (hay needle : String) : Bool :=
  isSubList needle.toList hay.toList

/-- Python's `str.lower()` (ASCII case folding, character by character, as
`String.toLower` performs it). -/
def strLower (s : String) : String :=
  ⟨s.data.map Char.toLower⟩

instance {ε α : Type} [DecidableEq ε] [DecidableEq α] : DecidableEq (Except ε α) :=
  fun a b =>
    match a, b with
    | Except.error e₁, Except.error e₂ =>
        if h : e₁ = e₂ then isTrue (h ▸ rfl)
        else isFalse fun hc => h (Except.error.inj hc)
    | Except.error _, Except.ok _ => isFalse fun hc => Except.noConfusion hc
    | Except.ok _, Except.error _ => isFalse fun hc => Except.noConfusion hc
    | Except.ok a₁, Except.ok a₂ =>
        if h : a₁ = a₂ then isTrue (h ▸ rfl)
        else isFalse fun hc => h (Except.ok.inj hc)

/-- One failure-mode record, as read out of the JSON dictionary.  Every field
is optional because the Python code accesses each of them with `.get`. -/
structure ModeData where
  category : Option String
  short_description : Option String
  description : Option String
  example_scenarios : Option (List String)
  phd_level_analysis : Option String
  tactical_solutions : Option (List String)
  structural_solutions : Option (List String)
deriving DecidableEq

/-- A record with none of the optional fields: Python's `{}`, the value
`get_failure_mode_info` returns for an unknown mode name. -/
def emptyModeData : ModeData :=
  ⟨none, none, none, none, none, none, none⟩

/-- The educator agent's state: `self.failure_modes`, an insertion-ordered
mapping from failure-mode name to its record. -/
structure Educator where
  failure_modes : List (String × ModeData)

/-- The category index: an insertion-ordered dictionary from category key
(`mode_data.get('category')`, hence possibly `None`) to the list of mode
names in that category. -/
abbrev Cats := List (Option String × List String)

/-- Dictionary lookup on the category index. -/
def catLookup : Cats → Option String → Option (List String)
  | [], _ => none
  | p :: ps, k => if p.1 = k then some p.2 else catLookup ps k

/-- Append `n` to the bucket of key `k` (the `categories[category].append`
step, which updates the first — unique — entry holding key `k`). -/
def catAppend : Cats → Option String → String → Cats
  | [], k, n => [(k, [n])]
  | p :: ps, k, n =>
      if p.1 = k then (p.1, p.2 ++ [n]) :: ps else p :: catAppend ps k n

/-- One iteration of `_organize_categories`: create the bucket on first
sight (`if category not in categories`), then append the mode name. -/
def catInsert (cats : Cats) (k : Option String) (n : String) : Cats :=
  if (catLookup cats k).isSome then catAppend cats k n
  else cats ++ [(k, [n])]

/-- `MultiAgentFailureEducator._organize_categories`: one pass over the
failure modes in their given order. -/
def organize_categories (modes : List (String × ModeData)) : Cats :=
  modes.foldl (fun cats p => catInsert cats p.2.category p.1) []

/-- `self.categories`, computed in `__init__` from `self.failure_modes`. -/
def categoriesOf (ed : Educator) : Cats :=
  organize_categories ed.failure_modes

/-- `MultiAgentFailureEducator.get_all_categories`: `list(self.categories.keys())`. -/
def get_all_categories (ed : Educator) : List (Option String) :=
  (categoriesOf ed).map Prod.fst

/-- `MultiAgentFailureEducator.get_failure_modes_in_category`:
`self.categories.get(category, [])`. -/
def get_failure_modes_in_category (ed : Educator) (k : Option String) : List String :=
  (catLookup (categoriesOf ed) k).getD []

/-- `MultiAgentFailureEducator.get_failure_mode_info`:
`self.failure_modes.get(mode_name, {})`. -/
def get_failure_mode_info (ed : Educator) (name : String) : ModeData :=
  (((ed.failure_modes.find? fun p => p.1 = name)).map Prod.snd).getD emptyModeData

/-- How Python's f-string renders a value that may be `None`. -/
def optStr : Option String → String
  | none => "None"
  | some s => s

/-- `MultiAgentFailureEducator.demonstrate_failure_mode`; `pick` models the
`random.choice` draw, indexing the nonempty scenario list at `pick % length`. -/
def demonstrate_failure_mode (ed : Educator) (pick : Nat) (name : String) : String :=
  let scenarios := (get_failure_mode_info ed name).example_scenarios.getD []
  match scenarios with
  | [] => "No demonstration scenarios available for " ++ name ++ "."
  | s :: rest => (s :: rest).getD (pick % (s :: rest).length) s

/-- `MultiAgentFailureEducator.analyze_failure_mode`. -/
def analyze_failure_mode (ed : Educator) (name : String) : String :=
  (get_failure_mode_info ed name).phd_level_analysis.getD
    ("No analysis available for " ++ name ++ ".")

/-- The dictionary returned by `MultiAgentFailureEducator.get_solutions`. -/
structure Solutions where
  tactical : List String
  structural : List String
deriving DecidableEq

/-- `MultiAgentFailureEducator.get_solutions`. -/
def get_solutions (ed : Educator) (name : String) : Solutions :=
  let mode_info := get_failure_mode_info ed name
  ⟨mode_info.tactical_solutions.getD [], mode_info.structural_solutions.getD []⟩

/-- `MultiAgentFailureEducator.explain_category`: the fixed three-entry
description table, with the f-string fallback (which renders a `None`
category key as the text `None`). -/
def explain_category (category : Option String) : String :=
  if category = some "Communication Failures" then
    "Communication failures occur when information exchange between multiple LLM agents is impaired. These failures can result from information withholding, miscommunication, verbosity issues, incomplete exchanges, or signal distortion. They represent fundamental challenges in the transmission and reception of information between autonomous agents."
  else if category = some "Alignment Failures" then
    "Alignment failures emerge when the goals, values, or world models of multiple agents are not properly synchronized. These include inter-agent misalignment, divergent objectives, conflicting prioritization, inconsistent world models, and value misalignment. Such failures represent deeper architectural and design challenges in multi-agent systems."
  else if category = some "Decision/Coordination Failures" then
    "Decision and coordination failures manifest when multiple agents cannot effectively reach consensus or coordinate their actions. These include decision paralysis, fragmented consensus, resource misallocation, and coordination overhead. These failures reveal limitations in the collective decision-making capabilities of multi-agent systems."
  else
    "No description available for " ++ optStr category ++ "."

/-- The bullet list built by `for solution in ...: response += f"- {solution}\n"`:
one `- item` line per list element, in list order. -/
def bullets : List String → String
  | [] => ""
  | s :: rest => "- " ++ s ++ "\n" ++ bullets rest

/-- The bullet line for one member mode inside category / all-modes listings. -/
def modeBullet (ed : Educator) (m : String) : String :=
  "- **" ++ m ++ "**: " ++
    (get_failure_mode_info ed m).short_description.getD "No description available." ++ "\n"

/-- The failure-mode document as a function of the already-drawn
demonstration string (the rest of `_generate_failure_mode_response`). -/
def mode_response_with_demo (ed : Educator) (name demonstration : String) : String :=
  let mode_info := get_failure_mode_info ed name
  let analysis := analyze_failure_mode ed name
  let solutions := get_solutions ed name
  "# " ++ name ++ " (Category: " ++ optStr mode_info.category ++ ")" ++
  "\n\n## Definition\n" ++ mode_info.description.getD "No description available." ++
  "\n\n## Demonstration\n" ++ demonstration ++
  "\n\n## PhD-Level Analysis\n" ++ analysis ++
  "\n\n## Solutions\n" ++
  "\n### Tactical Solutions\n" ++ bullets solutions.tactical ++
  "\n### Structural Solutions\n" ++ bullets solutions.structural

/-- `MultiAgentFailureEducator._generate_failure_mode_response`. -/
def generate_failure_mode_response (ed : Educator) (pick : Nat) (name : String) : String :=
  mode_response_with_demo ed name (demonstrate_failure_mode ed pick name)

/-- `MultiAgentFailureEducator._generate_category_response` (only ever called
with a category that is an actual string). -/
def generate_category_response (ed : Educator) (category : String) : String :=
  let explanation := explain_category (some category)
  let modes := get_failure_modes_in_category ed (some category)
  "# " ++ category ++ "\n\n" ++ explanation ++ "\n\n## Failure Modes in this Category:\n" ++
  String.join (modes.map fun m => modeBullet ed m)

/-- `MultiAgentFailureEducator._generate_all_failure_modes_response`. -/
def generate_all_failure_modes_response (ed : Educator) : String :=
  "# All Failure Modes\n\n" ++
  String.join ((categoriesOf ed).map fun p =>
    "## " ++ optStr p.1 ++ "\n" ++ String.join (p.2.map fun m => modeBullet ed m) ++ "\n")

/-- `MultiAgentFailureEducator._generate_all_categories_response`. -/
def generate_all_categories_response (ed : Educator) : String :=
  "# All Failure Mode Categories\n\n" ++
  String.join ((get_all_categories ed).map fun c =>
    "## " ++ optStr c ++ "\n" ++ explain_category c ++ "\n\n")

/-- `MultiAgentFailureEducator._generate_help_response`. -/
def generate_help_response : String :=
  "# Multi-Agent Failure Educator Help\n\n" ++
  "I can help you learn about why multi-agent LLM systems fail. Here are some things you can ask me:\n\n" ++
  "- Ask about a specific failure mode (e.g., \x27Show me an example of information withholding\x27)\n" ++
  "- Request explanation of a failure category (e.g., \x27Explain inter-agent misalignment\x27)\n" ++
  "- Ask for solutions to a particular failure mode\n" ++
  "- Request a list of all failure modes or categories\n"

/-- The first loop of `process_user_request`: the first failure-mode name
whose lower-cased text is a substring of the lower-cased request. -/
def findModeMatch (modes : List (String × ModeData)) (request_lower : String) : Option String :=
  (modes.find? fun p => strContains request_lower (strLower p.1)).map Prod.fst

/-- The second loop of `process_user_request`, faithfully including the
`AttributeError` Python raises when a category key is `None` (the f-string
evaluates `category.lower()` before any containment test). -/
def findCategoryMatchExc (request_lower : String) :
    List (Option String) → Except String (Option String)
  | [] => Except.ok none
  | none :: _ =>
      Except.error "AttributeError: NoneType object has no attribute lower"
  | some c :: rest =>
      if strContains request_lower ("explain " ++ strLower c) ||
         strContains request_lower ("about " ++ strLower c) then
        Except.ok (some c)
      else findCategoryMatchExc request_lower rest

/-- `MultiAgentFailureEducator.process_user_request`.  `Except.error` marks
an uncaught Python exception; `pick` is the `random.choice` draw. -/
def process_user_request (ed : Educator) (pick : Nat) (request : String) :
    Except String String :=
  let request_lower := strLower request
  match findModeMatch ed.failure_modes request_lower with
  | some name => Except.ok (generate_failure_mode_response ed pick name)
  | none =>
    match findCategoryMatchExc request_lower (get_all_categories ed) with
    | Except.error e => Except.error e
    | Except.ok (some c) => Except.ok (generate_category_response ed c)
    | Except.ok none =>
      if strContains request_lower "list all failure modes" ||
         strContains request_lower "show all failures" then
        Except.ok (generate_all_failure_modes_response ed)
      else if strContains request_lower "list all categories" ||
              strContains request_lower "show all categories" then
        Except.ok (generate_all_categories_response ed)
      else
        Except.ok generate_help_response

/-- The routing cascade as the specification words it: mode match (store
order, first match) > category match (`categories()` order over category
names) > all-modes command > all-categories command > help. -/
def routeSpec (ed : Educator) (pick : Nat) (request : String) : String :=
  let low := strLower request
  match (ed.failure_modes.find? fun p => strContains low (strLower p.1)).map Prod.fst with
  | some name => generate_failure_mode_response ed pick name
  | none =>
    match ((get_all_categories ed).filterMap id).find? (fun c =>
        strContains low ("explain " ++ strLower c) ||
        strContains low ("about " ++ strLower c)) with
    | some c => generate_category_response ed c
    | none =>
      if strContains low "list all failure modes" ||
         strContains low "show all failures" then
        generate_all_failure_modes_response ed
      else if strContains low "list all categories" ||
              strContains low "show all categories" then
        generate_all_categories_response ed
      else
        generate_help_response

/-- Well-formed taxonomy store (data model of the specification): every
record's `category` field is present. -/
abbrev WFStore (ed : Educator) : Prop :=
  ∀ p ∈ ed.failure_modes, p.2.category.isSome

/-- The mode names holding category key `k`, in store order. -/
def bucket (modes : List (String × ModeData)) (k : Option String) : List String :=
  (modes.filter fun p => p.2.category = k).map Prod.fst

/-- Does some record carry category key `k`? -/
def hasCat (modes : List (String × ModeData)) (k : Option String) : Bool :=
  modes.any fun p => p.2.category = k

/-! ## The interaction log (`database.py`)

The three SQLite tables are lists of rows; `AUTOINCREMENT` ids start at 1
and the `CURRENT_TIMESTAMP` of each insert is passed in by the caller as a
natural number (integer-comparable, as the specification requires). -/

/-- A row of the `user_queries` table. -/
structure QueryRow where
  id : Nat
  query : String
  timestamp : Nat
deriving DecidableEq

/-- A row of the `viewed_failure_modes` table. -/
structure ViewRow where
  id : Nat
  failure_mode : String
  timestamp : Nat
deriving DecidableEq

/-- A row of the `solution_feedback` table (`rating` and `comment` are
nullable columns). -/
structure FeedbackRow where
  id : Nat
  failure_mode : String
  solution_type : String
  solution_text : String
  rating : Option Int
  comment : Option String
  timestamp : Nat
deriving DecidableEq

/-- The state of `FailureEducatorDatabase`: the three tables plus the next
`AUTOINCREMENT` value of each. -/
structure DBState where
  user_queries : List QueryRow
  viewed_failure_modes : List ViewRow
  solution_feedback : List FeedbackRow
  next_query_id : Nat
  next_view_id : Nat
  next_feedback_id : Nat
deriving DecidableEq

/-- A freshly created database: empty tables, ids starting at 1. -/
def emptyDB : DBState :=
  ⟨[], [], [], 1, 1, 1⟩

/-- `FailureEducatorDatabase.log_user_query` at timestamp `ts`; returns the
new state and `lastrowid`. -/
def log_user_query (db : DBState) (q : String) (ts : Nat) : DBState × Nat :=
  let rid := db.next_query_id
  ({ db with
      user_queries := db.user_queries ++ [⟨rid, q, ts⟩],
      next_query_id := rid + 1 }, rid)

/-- `FailureEducatorDatabase.log_viewed_failure_mode`. -/
def log_viewed_failure_mode (db : DBState) (m : String) (ts : Nat) : DBState × Nat :=
  let rid := db.next_view_id
  ({ db with
      viewed_failure_modes := db.viewed_failure_modes ++ [⟨rid, m, ts⟩],
      next_view_id := rid + 1 }, rid)

/-- `FailureEducatorDatabase.log_solution_feedback`. -/
def log_solution_feedback (db : DBState) (m stype stext : String)
    (rating : Option Int) (comment : Option String) (ts : Nat) : DBState × Nat :=
  let rid := db.next_feedback_id
  ({ db with
      solution_feedback := db.solution_feedback ++ [⟨rid, m, stype, stext, rating, comment, ts⟩],
      next_feedback_id := rid + 1 }, rid)

/-- Insert one row into a list already sorted by timestamp descending,
keeping the scan (insertion) order among rows with equal timestamps — the
tie behaviour SQLite 3.40 exhibits for `ORDER BY timestamp DESC` over a
table scanned in rowid order. -/
def insertTsDesc (x : QueryRow) : List QueryRow → List QueryRow
  | [] => [x]
  | y :: ys => if y.timestamp ≤ x.timestamp then x :: y :: ys else y :: insertTsDesc x ys

/-- Stable sort of the `user_queries` table by timestamp descending. -/
def sortTsDesc (l : List QueryRow) : List QueryRow :=
  l.foldr insertTsDesc []

/-- `FailureEducatorDatabase.get_recent_queries`:
`SELECT * FROM user_queries ORDER BY timestamp DESC LIMIT ?`. -/
def get_recent_queries (db : DBState) (limit : Nat) : List QueryRow :=
  (sortTsDesc db.user_queries).take limit

/-- Lexicographic comparison of character lists by code point (the order of
`String` comparison and of SQLite `BINARY` collation on UTF-8 text). -/
def charListLt : List Char → List Char → Bool
  | [], [] => false
  | [], _ :: _ => true
  | _ :: _, [] => false
  | a :: as, b :: bs =>
      if a < b then true else if b < a then false else charListLt as bs

/-- `a < b` on strings, computed on the character lists. -/
def strLt (a b : String) : Bool :=
  charListLt a.data b.data

/-- Insert a string into an ascending sorted list without duplicates — how
SQLite materialises `GROUP BY` keys (ascending key order, `BINARY`
collation). -/
def insertSortedDedup (s : String) : List String → List String
  | [] => [s]
  | y :: ys =>
      if s = y then y :: ys
      else if strLt s y then s :: y :: ys
      else y :: insertSortedDedup s ys

/-- The sorted set of distinct values in a list of strings. -/
def sortedDedup (l : List String) : List String :=
  l.foldl (fun acc s => insertSortedDedup s acc) []

/-- `COUNT(*)` of the views of failure mode `n`. -/
def viewCount (views : List ViewRow) (n : String) : Nat :=
  (views.filter fun v => v.failure_mode = n).length

/-- Insert a `(failure_mode, view_count)` pair into a list sorted by count
descending, with equal counts ordered by name descending — the order
SQLite 3.40 produces for `GROUP BY failure_mode ORDER BY view_count DESC`. -/
def insertCountDesc (x : String × Nat) : List (String × Nat) → List (String × Nat)
  | [] => [x]
  | y :: ys =>
      if y.2 < x.2 ∨ (y.2 = x.2 ∧ strLt y.1 x.1) then x :: y :: ys
      else y :: insertCountDesc x ys

/-- Sort the grouped pairs by view count descending. -/
def sortCountDesc (l : List (String × Nat)) : List (String × Nat) :=
  l.foldr insertCountDesc []

/-- `FailureEducatorDatabase.get_most_viewed_failure_modes`:
`SELECT failure_mode, COUNT(*) as view_count FROM viewed_failure_modes
GROUP BY failure_mode ORDER BY view_count DESC LIMIT ?`. -/
def get_most_viewed_failure_modes (db : DBState) (limit : Nat) : List (String × Nat) :=
  let names := sortedDedup (db.viewed_failure_modes.map fun v => v.failure_mode)
  let pairs := names.map fun n => (n, viewCount db.viewed_failure_modes n)
  (sortCountDesc pairs).take limit

/-- Dictionary lookup in an association list keyed by strings. -/
def lookupStr {α : Type} : List (String × α) → String → Option α
  | [], _ => none
  | p :: ps, k => if p.1 = k then some p.2 else lookupStr ps k

/-- The rows of `solution_feedback` with a non-null rating
(`WHERE rating IS NOT NULL`). -/
def ratedRows (db : DBState) : List FeedbackRow :=
  db.solution_feedback.filter fun r => r.rating.isSome

/-- The non-null ratings of solution type `t`. -/
def ratingsOfType (db : DBState) (t : String) : List Int :=
  ((ratedRows db).filter fun r => r.solution_type = t).filterMap fun r => r.rating

/-- `AVG(rating)` for one solution type, as an exact rational (the numeric
value SQLite approximates with a float). -/
def avgRatingOfType (db : DBState) (t : String) : Rat :=
  ((ratingsOfType db t).sum : Rat) / ((ratingsOfType db t).length : Rat)

/-- `COUNT(*)` of the feedback rows for failure mode `m`. -/
def feedbackCount (db : DBState) (m : String) : Nat :=
  (db.solution_feedback.filter fun r => r.failure_mode = m).length

/-- `FailureEducatorDatabase.get_solution_feedback_stats`: the pair of the
`avg_ratings_by_type` and `feedback_count_by_mode` dictionaries. -/
def get_solution_feedback_stats (db : DBState) :
    List (String × Rat) × List (String × Nat) :=
  ( (sortedDedup ((ratedRows db).map fun r => r.solution_type)).map
      (fun t => (t, avgRatingOfType db t)),
    (sortedDedup (db.solution_feedback.map fun r => r.failure_mode)).map
      (fun m => (m, feedbackCount db m)) )

/-- Database states reachable from a freshly created database by a sequence
of log calls. -/
inductive Reachable : DBState → Prop where
  | empty : Reachable emptyDB
  | logQ {db} (q : String) (ts : Nat) :
      Reachable db → Reachable (log_user_query db q ts).1
  | logV {db} (m : String) (ts : Nat) :
      Reachable db → Reachable (log_viewed_failure_mode db m ts).1
  | logF {db} (m stype stext : String) (rating : Option Int)
      (comment : Option String) (ts : Nat) :
      Reachable db → Reachable (log_solution_feedback db m stype stext rating comment ts).1

/-! ## The caller (`app.py`) -/

/-- `MultiAgentFailureEducatorApp._process_query`: strip the raw entry text,
bail out on empty, log the query, then route it.  Returns the new database
state and the response (`none` when the handler returned early). -/
def appProcessQuery (ed : Educator) (db : DBState) (ts pick : Nat) (raw : String) :
    DBState × Option (Except String String) :=
  let query := raw.trim
  if query = "" then (db, none)
  else
    let db₁ := (log_user_query db query ts).1
    (db₁, some (process_user_request ed pick query))

/-! ## Concrete inputs for witnesses and counterexamples -/

/-- A small well-formed taxonomy store with two modes in one category and a
third mode in another. -/
def edEx : Educator :=
  ⟨[ ("Alpha Fail",
      ⟨some "Communication Failures", some "short a", some "desc a",
       some ["scenario a1", "scenario a2"], some "analysis a",
       some ["tac a"], some []⟩),
     ("Beta Fail",
      ⟨some "Communication Failures", some "short b", some "desc b",
       some [], some "analysis b", some [], some ["str b1", "str b2"]⟩),
     ("Gamma Fail",
      ⟨some "Alignment Failures", none, none, none, none, none, none⟩) ]⟩

/-- A store containing a record with no `category` field. -/
def edNoCat : Educator :=
  ⟨[ ("Alpha Fail",
      ⟨some "Communication Failures", none, none, none, none, none, none⟩),
     ("Orphan Fail",
      ⟨none, none, none, none, none, none, none⟩) ]⟩

/-- Two queries logged in the same second: the tie-order counterexample. -/
def dbTie : DBState :=
  (log_user_query (log_user_query emptyDB "a" 5).1 "b" 5).1

/-- `logQuery "foo"` on an empty log. -/
def dbFoo : DBState :=
  (log_user_query emptyDB "foo" 7).1

/-- Three views of "X" and one view of "Y". -/
def dbViews : DBState :=
  (log_viewed_failure_mode
    (log_viewed_failure_mode
      (log_viewed_failure_mode
        (log_viewed_failure_mode emptyDB "X" 1).1 "X" 2).1 "Y" 3).1 "X" 4).1

/-- Feedback entries {tactical, 4}, {tactical, 2}, {structural, None}. -/
def dbFeedback : DBState :=
  (log_solution_feedback
    (log_solution_feedback
      (log_solution_feedback emptyDB "M" "tactical" "s1" (some 4) none 1).1
      "M" "tactical" "s2" (some 2) none 2).1
    "M" "structural" "s3" none none 3).1

/-- The order `get_recent_queries` actually produces: newest first by
timestamp, equal timestamps in insertion order (id ascending). -/
def recentOrder (a b : QueryRow) : Prop :=
  b.timestamp < a.timestamp ∨ (a.timestamp = b.timestamp ∧ a.id < b.id)

/-! ## Lemmas about the category index -/

theorem catLookup_eq_none {cats : Cats} {k : Option String} :
    catLookup cats k = none ↔ k ∉ cats.map Prod.fst := by
  induction cats with
  | nil => simp [catLookup]
  | cons p ps ih =>
    by_cases h : p.1 = k
    · subst h
      simp [catLookup]
    · simp only [catLookup, if_neg h, ih, List.map_cons, List.mem_cons, not_or]
      exact ⟨fun hm => ⟨fun hk => h hk.symm, hm⟩, fun hm => hm.2⟩

theorem keys_catAppend {cats : Cats} {k : Option String} (n : String)
    (hk : (catLookup cats k).isSome) :
    (catAppend cats k n).map Prod.fst = cats.map Prod.fst := by
  induction cats with
  | nil => exact absurd hk (by simp [catLookup])
  | cons p ps ih =>
    by_cases h : p.1 = k
    · simp [catAppend, h]
    · have hk' : (catLookup ps k).isSome := by
        simpa [catLookup, h] using hk
      simp [catAppend, h, ih hk']

theorem catLookup_catAppend {cats : Cats} {k : Option String} {l : List String}
    (n : String) (h : catLookup cats k = some l) (k' : Option String) :
    catLookup (catAppend cats k n) k' =
      if k' = k then some (l ++ [n]) else catLookup cats k' := by
  induction cats with
  | nil => exact Option.noConfusion h
  | cons p ps ih =>
    by_cases hp : p.1 = k
    · simp only [catLookup, hp, if_pos rfl] at h
      obtain rfl : p.2 = l := Option.some.inj h
      by_cases hk : k' = k
      · simp [catAppend, hp, catLookup, hk, hp.trans hk.symm]
      · have hpk : ¬ p.1 = k' := fun hc => hk (hc.symm.trans hp)
        have hkk : ¬ k = k' := fun hc => hk hc.symm
        simp [catAppend, hp, catLookup, hk, hpk, hkk]
    · simp only [catLookup, hp, if_neg hp] at h
      by_cases hk : p.1 = k'
      · have : ¬ k' = k := fun hc => hp (hk.trans hc)
        simp [catAppend, hp, catLookup, hk, this]
      · simp [catAppend, hp, catLookup, hk, ih h]

theorem catLookup_append (c₁ c₂ : Cats) (k : Option String) :
    catLookup (c₁ ++ c₂) k =
      if (catLookup c₁ k).isSome then catLookup c₁ k else catLookup c₂ k := by
  induction c₁ with
  | nil => simp [catLookup]
  | cons p ps ih =>
    by_cases h : p.1 = k <;> simp [catLookup, h, ih]

theorem catLookup_catInsert (cats : Cats) (k : Option String) (n : String)
    (k' : Option String) :
    catLookup (catInsert cats k n) k' =
      if k' = k then some ((catLookup cats k).getD [] ++ [n])
      else catLookup cats k' := by
  unfold catInsert
  by_cases h : (catLookup cats k).isSome
  · obtain ⟨l, hl⟩ := Option.isSome_iff_exists.mp h
    simp [h, catLookup_catAppend n hl, hl]
  · have hnone : catLookup cats k = none := Option.not_isSome_iff_eq_none.mp h
    rw [if_neg h, catLookup_append]
    by_cases hk : k' = k
    · simp [hk, hnone, catLookup]
    · have : ¬ k = k' := fun hc => hk hc.symm
      by_cases h2 : (catLookup cats k').isSome
      · simp [h2, hk]
      · have h2none : catLookup cats k' = none := Option.not_isSome_iff_eq_none.mp h2
        simp [h2, hk, catLookup, this, h2none]

theorem keys_catInsert (cats : Cats) (k : Option String) (n : String) :
    (catInsert cats k n).map Prod.fst =
      if (catLookup cats k).isSome then cats.map Prod.fst
      else cats.map Prod.fst ++ [k] := by
  unfold catInsert
  by_cases h : (catLookup cats k).isSome
  · simp [h, keys_catAppend n h]
  · simp [h]

theorem nodupKeys_catInsert {cats : Cats} (k : Option String) (n : String)
    (h : (cats.map Prod.fst).Nodup) : ((catInsert cats k n).map Prod.fst).Nodup := by
  rw [keys_catInsert]
  by_cases hs : (catLookup cats k).isSome
  · simpa [hs] using h
  · have hk : k ∉ cats.map Prod.fst :=
      catLookup_eq_none.mp (Option.not_isSome_iff_eq_none.mp hs)
    simp only [hs, if_false, Bool.false_eq_true]
    exact List.Nodup.append h (List.nodup_singleton k)
      (by simpa [List.disjoint_singleton] using hk)

theorem organize_lookup_aux (modes : List (String × ModeData)) :
    ∀ (cats : Cats) (k : Option String),
      catLookup (modes.foldl (fun cs p => catInsert cs p.2.category p.1) cats) k =
        if (catLookup cats k).isSome ∨ hasCat modes k then
          some ((catLookup cats k).getD [] ++ bucket modes k)
        else none := by
  induction modes with
  | nil =>
    intro cats k
    cases h : catLookup cats k <;> simp [h, hasCat, bucket]
  | cons p modes ih =>
    intro cats k
    rw [List.foldl_cons, ih (catInsert cats p.2.category p.1) k]
    by_cases hk : k = p.2.category
    · subst hk
      have hcat : hasCat (p :: modes) p.2.category = true := by
        simp [hasCat, List.any_cons]
      have hbucket : bucket (p :: modes) p.2.category =
          p.1 :: bucket modes p.2.category := by
        simp [bucket, List.filter_cons]
      rw [catLookup_catInsert cats p.2.category p.1 p.2.category, if_pos rfl]
      cases h : catLookup cats p.2.category <;>
        simp [h, hcat, hbucket, List.append_assoc, List.singleton_append]
    · have hck : ¬ p.2.category = k := fun hc => hk hc.symm
      have hcat : hasCat (p :: modes) k = hasCat modes k := by
        simp [hasCat, List.any_cons, hck]
      have hbucket : bucket (p :: modes) k = bucket modes k := by
        simp [bucket, List.filter_cons, hck]
      rw [catLookup_catInsert cats p.2.category p.1 k, if_neg hk, hcat, hbucket]

theorem organize_lookup (modes : List (String × ModeData)) (k : Option String) :
    catLookup (organize_categories modes) k =
      if hasCat modes k then some (bucket modes k) else none := by
  have h := organize_lookup_aux modes [] k
  simpa [organize_categories, catLookup] using h

theorem organize_keys_nodup (modes : List (String × ModeData)) :
    ((organize_categories modes).map Prod.fst).Nodup := by
  suffices h : ∀ (l : List (String × ModeData)) (cats : Cats),
      (cats.map Prod.fst).Nodup →
      ((l.foldl (fun cs p => catInsert cs p.2.category p.1) cats).map Prod.fst).Nodup by
    exact h modes [] (by simp)
  intro l
  induction l with
  | nil => exact fun cats h => h
  | cons p ps ih =>
    intro cats h
    exact ih (catInsert cats p.2.category p.1) (nodupKeys_catInsert _ _ h)

theorem mem_keys_organize {modes : List (String × ModeData)} {k : Option String} :
    k ∈ (organize_categories modes).map Prod.fst ↔ hasCat modes k = true := by
  constructor
  · intro h
    by_contra hc
    have hnone : catLookup (organize_categories modes) k = none := by
      rw [organize_lookup]
      simp [hc]
    exact catLookup_eq_none.mp hnone h
  · intro h
    by_contra hc
    have hnone : catLookup (organize_categories modes) k = none :=
      catLookup_eq_none.mpr hc
    rw [organize_lookup, if_pos h] at hnone
    exact Option.noConfusion hnone

theorem assoc_val_unique {α β : Type} {l : List (α × β)}
    (h : (l.map Prod.fst).Nodup) {a : α} {b c : β}
    (h1 : (a, b) ∈ l) (h2 : (a, c) ∈ l) : b = c := by
  induction l with
  | nil => cases h1
  | cons p ps ih =>
    have h' : (p.1 :: ps.map Prod.fst).Nodup := by simpa using h
    have hhead : p.1 ∉ ps.map Prod.fst := (List.nodup_cons.mp h').1
    have htail : (ps.map Prod.fst).Nodup := (List.nodup_cons.mp h').2
    rcases List.mem_cons.mp h1 with h1h | h1t
    · rcases List.mem_cons.mp h2 with h2h | h2t
      · exact congrArg Prod.snd (h1h.trans h2h.symm)
      · have ha : a = p.1 := congrArg Prod.fst h1h
        exact absurd (List.mem_map.mpr ⟨(a, c), h2t, ha⟩) hhead
    · rcases List.mem_cons.mp h2 with h2h | h2t
      · have ha : a = p.1 := congrArg Prod.fst h2h
        exact absurd (List.mem_map.mpr ⟨(a, b), h1t, ha⟩) hhead
      · exact ih htail h1t h2t

/-! ## Lemmas about the router -/

theorem findCategoryMatchExc_eq (low : String) :
    ∀ (ks : List (Option String)), (∀ k ∈ ks, k.isSome) →
      findCategoryMatchExc low ks =
        Except.ok ((ks.filterMap id).find? fun c =>
          strContains low ("explain " ++ strLower c) ||
          strContains low ("about " ++ strLower c)) := by
  intro ks
  induction ks with
  | nil => intro _; simp [findCategoryMatchExc]
  | cons k rest ih =>
    intro h
    cases k with
    | none => exact absurd (h none (List.mem_cons_self _ _)) (by simp)
    | some c =>
      have hrest : ∀ k ∈ rest, k.isSome :=
        fun k hk => h k (List.mem_cons_of_mem _ hk)
      have hfm : (some c :: rest).filterMap (fun a => id a) = c :: rest.filterMap id := by
        rw [List.filterMap_cons]
        rfl
      rw [findCategoryMatchExc, hfm, List.find?_cons]
      cases hb : (strContains low ("explain " ++ strLower c) ||
          strContains low ("about " ++ strLower c)) with
      | true => simp [hb]
      | false => simp [hb, ih hrest]

theorem wf_keys_isSome {ed : Educator} (h : WFStore ed) :
    ∀ k ∈ get_all_categories ed, k.isSome := by
  intro k hk
  have hcat : hasCat ed.failure_modes k = true :=
    mem_keys_organize.mp (by simpa [get_all_categories, categoriesOf] using hk)
  obtain ⟨a, b, hab, hbk⟩ := by simpa [hasCat, List.any_eq_true] using hcat
  exact hbk ▸ h (a, b) hab

theorem process_ok (ed : Educator) (pick : Nat) (request : String)
    (h : WFStore ed) :
    process_user_request ed pick request = Except.ok (routeSpec ed pick request) := by
  unfold process_user_request routeSpec findModeMatch
  cases hm : (ed.failure_modes.find? fun p =>
      strContains (strLower request) (strLower p.1)).map Prod.fst with
  | some name => simp [hm]
  | none =>
    simp only [hm]
    rw [findCategoryMatchExc_eq (strLower request) (get_all_categories ed) (wf_keys_isSome h)]
    cases hc : ((get_all_categories ed).filterMap id).find? (fun c =>
        strContains (strLower request) ("explain " ++ strLower c) ||
        strContains (strLower request) ("about " ++ strLower c)) with
    | some c => simp [hc]
    | none =>
      cases hb1 : (strContains (strLower request) "list all failure modes" ||
          strContains (strLower request) "show all failures") with
      | true => simp [hc, hb1]
      | false =>
        cases hb2 : (strContains (strLower request) "list all categories" ||
            strContains (strLower request) "show all categories") with
        | true => simp [hc, hb1, hb2]
        | false => simp [hc, hb1, hb2]

/-! ## Lemmas about the interaction log -/

theorem mem_insertTsDesc {x z : QueryRow} :
    ∀ {l : List QueryRow}, z ∈ insertTsDesc x l ↔ z = x ∨ z ∈ l := by
  intro l
  induction l with
  | nil => simp [insertTsDesc]
  | cons y ys ih =>
    by_cases h : y.timestamp ≤ x.timestamp
    · simp [insertTsDesc, h]
    · simp only [insertTsDesc, if_neg h, List.mem_cons, ih]
      tauto

theorem pairwise_insertTsDesc {x : QueryRow} :
    ∀ {l : List QueryRow}, List.Pairwise recentOrder l →
      (∀ y ∈ l, x.timestamp = y.timestamp → x.id < y.id) →
      List.Pairwise recentOrder (insertTsDesc x l) := by
  intro l
  induction l with
  | nil => intro _ _; simp [insertTsDesc]
  | cons y ys ih =>
    intro hl hx
    rcases List.pairwise_cons.mp hl with ⟨hy, hys⟩
    by_cases h : y.timestamp ≤ x.timestamp
    · rw [insertTsDesc, if_pos h]
      refine List.pairwise_cons.mpr ⟨?_, hl⟩
      intro z hz
      rcases List.mem_cons.mp hz with rfl | hzys
      · rcases lt_or_eq_of_le h with hlt | heq
        · exact Or.inl hlt
        · exact Or.inr ⟨heq.symm, hx z (List.mem_cons_self _ _) heq.symm⟩
      · have hzy : z.timestamp ≤ y.timestamp := by
          rcases hy z hzys with hlt | ⟨heq, _⟩
          · exact le_of_lt hlt
          · exact le_of_eq heq.symm
        rcases lt_or_eq_of_le (le_trans hzy h) with hlt | heq
        · exact Or.inl hlt
        · exact Or.inr ⟨heq.symm, hx z (List.mem_cons_of_mem _ hzys) heq.symm⟩
    · rw [insertTsDesc, if_neg h]
      have hxy : x.timestamp < y.timestamp := lt_of_not_le h
      refine List.pairwise_cons.mpr ⟨?_, ih hys (fun z hz => hx z (List.mem_cons_of_mem _ hz))⟩
      intro w hw
      rcases mem_insertTsDesc.mp hw with rfl | hwys
      · exact Or.inl hxy
      · exact hy w hwys

theorem mem_sortTsDesc {z : QueryRow} :
    ∀ {l : List QueryRow}, z ∈ sortTsDesc l ↔ z ∈ l := by
  intro l
  induction l with
  | nil => simp [sortTsDesc]
  | cons x xs ih =>
    show z ∈ insertTsDesc x (sortTsDesc xs) ↔ _
    rw [mem_insertTsDesc]
    simp [ih]

theorem pairwise_sortTsDesc :
    ∀ {l : List QueryRow}, List.Pairwise (fun a b => a.id < b.id) l →
      List.Pairwise recentOrder (sortTsDesc l) := by
  intro l
  induction l with
  | nil => intro _; simp [sortTsDesc]
  | cons x xs ih =>
    intro h
    rcases List.pairwise_cons.mp h with ⟨hx, hxs⟩
    show List.Pairwise recentOrder (insertTsDesc x (sortTsDesc xs))
    exact pairwise_insertTsDesc (ih hxs)
      (fun y hy _ => hx y (mem_sortTsDesc.mp hy))

theorem reachable_inv {db : DBState} (h : Reachable db) :
    (∀ r ∈ db.user_queries, r.id < db.next_query_id) ∧
    List.Pairwise (fun a b : QueryRow => a.id < b.id) db.user_queries := by
  induction h with
  | empty => simp [emptyDB]
  | logQ q ts _ ih =>
    rcases ih with ⟨hbound, hpw⟩
    constructor
    · intro r hr
      rcases List.mem_append.mp hr with hold | hnew
      · exact Nat.lt_succ_of_lt (hbound r hold)
      · rcases List.mem_singleton.mp hnew with rfl
        exact Nat.lt_succ_self _
    · refine List.pairwise_append.mpr ⟨hpw, List.pairwise_singleton _ _, ?_⟩
      intro a ha b hb
      rcases List.mem_singleton.mp hb with rfl
      exact hbound a ha
  | logV m ts _ ih => exact ih
  | logF m stype stext rating comment ts _ ih => exact ih

theorem charListLt_cons (p q : Char) (ps qs : List Char) :
    charListLt (p :: ps) (q :: qs) =
      if p < q then true else if q < p then false else charListLt ps qs := rfl

theorem charListLt_irrefl : ∀ l : List Char, charListLt l l = false := by
  intro l
  induction l with
  | nil => rfl
  | cons c cs ih => simp [charListLt_cons, lt_irrefl, ih]

theorem charListLt_trans :
    ∀ {a b c : List Char}, charListLt a b = true → charListLt b c = true →
      charListLt a c = true := by
  intro a
  induction a with
  | nil =>
    intro b c hab hbc
    cases b with
    | nil => exact absurd hab (by simp [charListLt])
    | cons d ds =>
      cases c with
      | nil => exact absurd hbc (by simp [charListLt])
      | cons e es => simp [charListLt]
  | cons x xs ih =>
    intro b c hab hbc
    cases b with
    | nil => exact absurd hab (by simp [charListLt])
    | cons d ds =>
      cases c with
      | nil => exact absurd hbc (by simp [charListLt])
      | cons e es =>
        rw [charListLt_cons] at hab hbc ⊢
        by_cases h1 : x < d
        · rw [if_pos h1] at hab
          by_cases h2 : d < e
          · rw [if_pos (lt_trans h1 h2)]
          · by_cases h3 : e < d
            · rw [if_neg h2, if_pos h3] at hbc
              exact absurd hbc (by simp)
            · have hde : d = e := le_antisymm (le_of_not_lt h3) (le_of_not_lt h2)
              rw [if_pos (hde ▸ h1)]
        · by_cases h1' : d < x
          · rw [if_neg h1, if_pos h1'] at hab
            exact absurd hab (by simp)
          · have hxd : x = d := le_antisymm (le_of_not_lt h1') (le_of_not_lt h1)
            rw [if_neg h1, if_neg h1'] at hab
            subst hxd
            by_cases h2 : x < e
            · rw [if_pos h2] at hbc ⊢
            · by_cases h3 : e < x
              · rw [if_neg h2, if_pos h3] at hbc
                exact absurd hbc (by simp)
              · have hde : x = e := le_antisymm (le_of_not_lt h3) (le_of_not_lt h2)
                subst hde
                rw [if_neg h2, if_neg h3] at hbc ⊢
                exact ih hab hbc

theorem charListLt_eq_of_not :
    ∀ {a b : List Char}, charListLt a b = false → charListLt b a = false → a = b := by
  intro a
  induction a with
  | nil =>
    intro b hab _
    cases b with
    | nil => rfl
    | cons d ds => exact absurd hab (by simp [charListLt])
  | cons x xs ih =>
    intro b hab hba
    cases b with
    | nil => exact absurd hba (by simp [charListLt])
    | cons d ds =>
      rw [charListLt_cons] at hab hba
      by_cases h1 : x < d
      · rw [if_pos h1] at hab
        exact absurd hab (by simp)
      · by_cases h2 : d < x
        · rw [if_pos h2] at hba
          exact absurd hba (by simp)
        · have hxd : x = d := le_antisymm (le_of_not_lt h2) (le_of_not_lt h1)
          subst hxd
          rw [if_neg h1, if_neg h2] at hab hba
          rw [ih hab hba]

theorem strLt_trans {a b c : String} (h1 : strLt a b = true)
    (h2 : strLt b c = true) : strLt a c = true :=
  charListLt_trans h1 h2

theorem strLt_eq_of_not {a b : String} (h1 : strLt a b = false)
    (h2 : strLt b a = false) : a = b := by
  cases a with
  | mk da =>
    cases b with
    | mk db => exact congrArg String.mk (charListLt_eq_of_not h1 h2)

theorem strLt_ne {a b : String} (h : strLt a b = true) : a ≠ b := by
  intro he
  subst he
  rw [show strLt a a = charListLt a.data a.data from rfl,
    charListLt_irrefl] at h
  exact Bool.noConfusion h

theorem mem_insertSortedDedup {s z : String} :
    ∀ {l : List String}, z ∈ insertSortedDedup s l ↔ z = s ∨ z ∈ l := by
  intro l
  induction l with
  | nil => simp [insertSortedDedup]
  | cons y ys ih =>
    by_cases h1 : s = y
    · subst h1
      simp [insertSortedDedup]
    · by_cases h2 : strLt s y = true
      · simp [insertSortedDedup, h1, h2]
      · simp only [insertSortedDedup, if_neg h1, if_neg h2, List.mem_cons, ih]
        tauto

theorem sorted_insertSortedDedup {s : String} :
    ∀ {l : List String}, List.Pairwise (fun a b => strLt a b = true) l →
      List.Pairwise (fun a b => strLt a b = true) (insertSortedDedup s l) := by
  intro l
  induction l with
  | nil => intro _; simp [insertSortedDedup]
  | cons y ys ih =>
    intro hl
    rcases List.pairwise_cons.mp hl with ⟨hy, hys⟩
    by_cases h1 : s = y
    · rw [insertSortedDedup, if_pos h1]
      exact hl
    · by_cases h2 : strLt s y = true
      · rw [insertSortedDedup, if_neg h1, if_pos h2]
        refine List.pairwise_cons.mpr ⟨?_, hl⟩
        intro z hz
        rcases List.mem_cons.mp hz with rfl | hzys
        · exact h2
        · exact strLt_trans h2 (hy z hzys)
      · rw [insertSortedDedup, if_neg h1, if_neg h2]
        have hsy : strLt s y = false := by
          cases hb : strLt s y
          · rfl
          · exact absurd hb h2
        have hys' : strLt y s = true := by
          cases hb : strLt y s
          · exact absurd (strLt_eq_of_not hsy hb) h1
          · rfl
        refine List.pairwise_cons.mpr ⟨?_, ih hys⟩
        intro w hw
        rcases mem_insertSortedDedup.mp hw with rfl | hwys
        · exact hys'
        · exact hy w hwys

theorem sortedDedup_aux_mem {z : String} :
    ∀ (l acc : List String),
      z ∈ l.foldl (fun acc s => insertSortedDedup s acc) acc ↔ z ∈ acc ∨ z ∈ l := by
  intro l
  induction l with
  | nil => intro acc; simp
  | cons s rest ih =>
    intro acc
    rw [List.foldl_cons, ih (insertSortedDedup s acc), mem_insertSortedDedup]
    simp only [List.mem_cons]
    tauto

theorem sortedDedup_mem {z : String} {l : List String} :
    z ∈ sortedDedup l ↔ z ∈ l := by
  rw [sortedDedup, sortedDedup_aux_mem]
  simp

theorem sortedDedup_sorted (l : List String) :
    List.Pairwise (fun a b => strLt a b = true) (sortedDedup l) := by
  suffices h : ∀ (m acc : List String), List.Pairwise (fun a b => strLt a b = true) acc →
      List.Pairwise (fun a b => strLt a b = true)
        (m.foldl (fun acc s => insertSortedDedup s acc) acc) by
    exact h l [] (by simp)
  intro m
  induction m with
  | nil => exact fun acc h => h
  | cons s rest ih =>
    intro acc hacc
    exact ih (insertSortedDedup s acc) (sorted_insertSortedDedup hacc)

theorem sortedDedup_nodup (l : List String) : (sortedDedup l).Nodup :=
  (sortedDedup_sorted l).imp fun h => strLt_ne h

theorem mem_insertCountDesc {x z : String × Nat} :
    ∀ {l : List (String × Nat)}, z ∈ insertCountDesc x l ↔ z = x ∨ z ∈ l := by
  intro l
  induction l with
  | nil => simp [insertCountDesc]
  | cons y ys ih =>
    have hunf : insertCountDesc x (y :: ys) =
        if y.2 < x.2 ∨ (y.2 = x.2 ∧ strLt y.1 x.1) then x :: y :: ys
        else y :: insertCountDesc x ys := rfl
    by_cases h : y.2 < x.2 ∨ (y.2 = x.2 ∧ strLt y.1 x.1)
    · rw [hunf, if_pos h]
      simp
    · rw [hunf, if_neg h]
      simp only [List.mem_cons, ih]
      tauto

theorem perm_insertCountDesc (x : String × Nat) :
    ∀ (l : List (String × Nat)), (insertCountDesc x l).Perm (x :: l) := by
  intro l
  induction l with
  | nil => simp [insertCountDesc]
  | cons y ys ih =>
    by_cases h : y.2 < x.2 ∨ (y.2 = x.2 ∧ strLt y.1 x.1)
    · rw [insertCountDesc, if_pos h]
    · rw [insertCountDesc, if_neg h]
      exact (ih.cons y).trans (List.Perm.swap x y ys)

theorem perm_sortCountDesc :
    ∀ (l : List (String × Nat)), (sortCountDesc l).Perm l := by
  intro l
  induction l with
  | nil => simp [sortCountDesc]
  | cons x xs ih =>
    show (insertCountDesc x (sortCountDesc xs)).Perm (x :: xs)
    exact (perm_insertCountDesc x (sortCountDesc xs)).trans (ih.cons x)

theorem pairwise_insertCountDesc {x : String × Nat} :
    ∀ {l : List (String × Nat)}, List.Pairwise (fun a b => b.2 ≤ a.2) l →
      List.Pairwise (fun a b => b.2 ≤ a.2) (insertCountDesc x l) := by
  intro l
  induction l with
  | nil => intro _; simp [insertCountDesc]
  | cons y ys ih =>
    intro hl
    rcases List.pairwise_cons.mp hl with ⟨hy, hys⟩
    by_cases h : y.2 < x.2 ∨ (y.2 = x.2 ∧ strLt y.1 x.1)
    · rw [insertCountDesc, if_pos h]
      refine List.pairwise_cons.mpr ⟨?_, hl⟩
      intro z hz
      have hyx : y.2 ≤ x.2 := by
        rcases h with hlt | ⟨heq, _⟩
        · exact le_of_lt hlt
        · exact le_of_eq heq
      rcases List.mem_cons.mp hz with rfl | hzys
      · exact hyx
      · exact le_trans (hy z hzys) hyx
    · rw [insertCountDesc, if_neg h]
      have hxy : x.2 ≤ y.2 := by
        rcases Nat.lt_or_ge x.2 y.2 with hlt | hge
        · exact le_of_lt hlt
        · have : y.2 ≤ x.2 := hge
          have heq : y.2 = x.2 := le_antisymm this (by
            by_contra hc
            exact h (Or.inl (lt_of_le_of_ne this (fun he => hc (le_of_eq he.symm)))))
          exact le_of_eq heq.symm
      refine List.pairwise_cons.mpr ⟨?_, ih hys⟩
      intro w hw
      rcases mem_insertCountDesc.mp hw with rfl | hwys
      · exact hxy
      · exact hy w hwys

theorem pairwise_sortCountDesc (l : List (String × Nat)) :
    List.Pairwise (fun a b => b.2 ≤ a.2) (sortCountDesc l) := by
  induction l with
  | nil => simp [sortCountDesc]
  | cons x xs ih =>
    show List.Pairwise _ (insertCountDesc x (sortCountDesc xs))
    exact pairwise_insertCountDesc ih

theorem lookupStr_map_self {α : Type} (f : String → α) (t : String) :
    ∀ (l : List String),
      lookupStr (l.map fun a => (a, f a)) t = if t ∈ l then some (f t) else none := by
  intro l
  induction l with
  | nil => simp [lookupStr]
  | cons a l ih =>
    by_cases h : a = t
    · subst h
      simp [lookupStr]
    · have ht : ¬ t = a := fun hc => h hc.symm
      simp [lookupStr, h, ih, ht]

/-! ## The claims -/

/-- Claim C1: on every input and every (well-formed, per the data model)
taxonomy store, the router matches in strict priority order — first
failure-mode identifier whose lower-cased text is a substring of the
lower-cased input (store order, first match wins), else the first category
matched via "explain "/"about " plus its lower-cased name (categories()
order), else the all-modes command, else the all-categories command, else
the help document.  `routeSpec` is that cascade stated verbatim from the
specification. -/
theorem claim1_route_priority_cascade (ed : Educator) (pick : Nat)
    (request : String) (h : WFStore ed) :
    process_user_request ed pick request = Except.ok (routeSpec ed pick request) :=
  process_ok ed pick request h

theorem claim1_route_priority_cascade_witness :
    process_user_request edEx 0 "tell me about beta fail" =
      Except.ok (routeSpec edEx 0 "tell me about beta fail") :=
  claim1_route_priority_cascade edEx 0 "tell me about beta fail" (by decide)

/-- Claim C2: on a well-formed store routing always returns a string and
never raises; building a failure-mode document with an empty
`example_scenarios` list yields the fixed placeholder instead of failing;
and an input matching no rule falls through to the help document. -/
theorem claim2_route_total (ed : Educator) (pick : Nat) (request name : String) :
    (WFStore ed → ∃ s, process_user_request ed pick request = Except.ok s) ∧
    ((get_failure_mode_info ed name).example_scenarios.getD [] = [] →
      demonstrate_failure_mode ed pick name =
        "No demonstration scenarios available for " ++ name ++ ".") ∧
    (findModeMatch ed.failure_modes (strLower request) = none →
     findCategoryMatchExc (strLower request) (get_all_categories ed) = Except.ok none →
     strContains (strLower request) "list all failure modes" = false →
     strContains (strLower request) "show all failures" = false →
     strContains (strLower request) "list all categories" = false →
     strContains (strLower request) "show all categories" = false →
     process_user_request ed pick request = Except.ok generate_help_response) := by
  refine ⟨?_, ?_, ?_⟩
  · intro h
    exact ⟨routeSpec ed pick request, process_ok ed pick request h⟩
  · intro h
    simp [demonstrate_failure_mode, h]
  · intro hm hc h1 h2 h3 h4
    simp [process_user_request, hm, hc, h1, h2, h3, h4]

theorem claim2_route_total_witness :
    (∃ s, process_user_request edEx 0 "xyzzy" = Except.ok s) ∧
    demonstrate_failure_mode edEx 0 "Beta Fail" =
      "No demonstration scenarios available for " ++ "Beta Fail" ++ "." ∧
    process_user_request edEx 0 "xyzzy" = Except.ok generate_help_response := by
  have h := claim2_route_total edEx 0 "xyzzy" "Beta Fail"
  exact ⟨h.1 (by decide), h.2.1 (by decide),
    h.2.2 (by decide) (by decide) (by decide) (by decide) (by decide) (by decide)⟩

/-- Claim C9: for a fixed store and input, two routing calls select the same
branch and (when a mode matches) the same failure mode, whatever the random
draws: either the two outputs are identical, or both are the failure-mode
document of the same first-matching mode and can differ only in the
demonstration scenario slot. -/
theorem claim9_mode_choice_deterministic (ed : Educator) (request : String)
    (p₁ p₂ : Nat) :
    process_user_request ed p₁ request = process_user_request ed p₂ request ∨
    ∃ name,
      findModeMatch ed.failure_modes (strLower request) = some name ∧
      process_user_request ed p₁ request =
        Except.ok (mode_response_with_demo ed name
          (demonstrate_failure_mode ed p₁ name)) ∧
      process_user_request ed p₂ request =
        Except.ok (mode_response_with_demo ed name
          (demonstrate_failure_mode ed p₂ name)) := by
  cases hm : findModeMatch ed.failure_modes (strLower request) with
  | some name =>
    right
    exact ⟨name, rfl,
      by simp [process_user_request, hm, generate_failure_mode_response],
      by simp [process_user_request, hm, generate_failure_mode_response]⟩
  | none =>
    left
    simp [process_user_request, hm]

/-- Claim C8: routing writes nothing — in the caller
(`app.py::_process_query`) the database change is exactly the caller's own
`log_user_query`, independent of the taxonomy store and of the random draw;
the view and feedback tables are untouched. -/
theorem claim8_route_no_side_effect (ed₁ ed₂ : Educator) (db : DBState)
    (ts p₁ p₂ : Nat) (raw : String) :
    (appProcessQuery ed₁ db ts p₁ raw).1 = (appProcessQuery ed₂ db ts p₂ raw).1 ∧
    (appProcessQuery ed₁ db ts p₁ raw).1.viewed_failure_modes =
      db.viewed_failure_modes ∧
    (appProcessQuery ed₁ db ts p₁ raw).1.solution_feedback =
      db.solution_feedback ∧
    (appProcessQuery ed₁ db ts p₁ raw).1.user_queries =
      db.user_queries ++
        (if raw.trim = "" then [] else [⟨db.next_query_id, raw.trim, ts⟩]) := by
  unfold appProcessQuery log_user_query
  by_cases h : raw.trim = "" <;> simp [h]

/-- Claim C7: the failure-mode document always contains both solution
subsection headings — an empty list renders as the heading with zero
bullets, never an omitted subsection — and a non-empty list renders one
bullet per item in list order; the document is what routing returns when
that mode matches. -/
theorem claim7_solutions_subsections (ed : Educator) (pick : Nat) (name : String) :
    ∃ pre,
      generate_failure_mode_response ed pick name =
        pre ++ "\n### Tactical Solutions\n" ++ bullets (get_solutions ed name).tactical ++
          "\n### Structural Solutions\n" ++ bullets (get_solutions ed name).structural ∧
      bullets [] = "" ∧
      (∀ s rest, bullets (s :: rest) = "- " ++ s ++ "\n" ++ bullets rest) ∧
      (∀ req, findModeMatch ed.failure_modes (strLower req) = some name →
        process_user_request ed pick req =
          Except.ok (generate_failure_mode_response ed pick name)) := by
  refine ⟨"# " ++ name ++ " (Category: " ++
      optStr (get_failure_mode_info ed name).category ++ ")" ++
      "\n\n## Definition\n" ++
      (get_failure_mode_info ed name).description.getD "No description available." ++
      "\n\n## Demonstration\n" ++ demonstrate_failure_mode ed pick name ++
      "\n\n## PhD-Level Analysis\n" ++ analyze_failure_mode ed name ++
      "\n\n## Solutions\n", ?_, rfl, fun s rest => rfl, ?_⟩
  · rfl
  · intro req hm
    simp [process_user_request, hm]

theorem claim7_solutions_subsections_witness :
    (∃ pre,
      generate_failure_mode_response edEx 0 "Alpha Fail" =
        pre ++ "\n### Tactical Solutions\n" ++
          bullets (get_solutions edEx "Alpha Fail").tactical ++
          "\n### Structural Solutions\n" ++
          bullets (get_solutions edEx "Alpha Fail").structural) ∧
    process_user_request edEx 0 "alpha fail info" =
      Except.ok (generate_failure_mode_response edEx 0 "Alpha Fail") := by
  obtain ⟨pre, h1, _, _, h4⟩ := claim7_solutions_subsections edEx 0 "Alpha Fail"
  exact ⟨⟨pre, h1⟩, h4 "alpha fail info" (by decide)⟩

theorem nodup_count_eq_one {α : Type} [BEq α] [LawfulBEq α] {a : α} {l : List α}
    (hnd : l.Nodup) (h : a ∈ l) : List.count a l = 1 := by
  induction l with
  | nil => cases h
  | cons x xs ih =>
    rcases List.mem_cons.mp h with rfl | hx
    · have hnot : a ∉ xs := (List.nodup_cons.mp hnd).1
      rw [List.count_cons_self, List.count_eq_zero.mpr hnot]
    · have hne : a ≠ x := fun hc => (List.nodup_cons.mp hnd).1 (hc ▸ hx)
      rw [List.count_cons_of_ne hne]
      exact ih (List.nodup_cons.mp hnd).2 hx

/-- Claim C6: after construction of the derived category index, every record
with a (non-empty) category has that category exactly once in
`categories()` and its identifier exactly once in `modesIn` of that
category.  The mode names are dictionary keys, hence distinct. -/
theorem claim6_category_index_exactly_once (ed : Educator) (name : String)
    (data : ModeData) (c : String)
    (hnd : (ed.failure_modes.map Prod.fst).Nodup)
    (hmem : (name, data) ∈ ed.failure_modes)
    (hcat : data.category = some c) (_hne : c ≠ "") :
    List.count (some c) (get_all_categories ed) = 1 ∧
    List.count name (get_failure_modes_in_category ed (some c)) = 1 := by
  have hhas : hasCat ed.failure_modes (some c) = true :=
    List.any_eq_true.mpr ⟨(name, data), hmem, by simp [hcat]⟩
  constructor
  · have hkmem : (some c) ∈ (organize_categories ed.failure_modes).map Prod.fst :=
      mem_keys_organize.mpr hhas
    exact nodup_count_eq_one (organize_keys_nodup _) hkmem
  · have hlook : get_failure_modes_in_category ed (some c) =
        bucket ed.failure_modes (some c) := by
      simp [get_failure_modes_in_category, categoriesOf, organize_lookup, hhas]
    rw [hlook]
    have hsub : (bucket ed.failure_modes (some c)).Sublist
        (ed.failure_modes.map Prod.fst) :=
      List.Sublist.map Prod.fst (List.filter_sublist _)
    have h1 : List.count name (ed.failure_modes.map Prod.fst) = 1 :=
      nodup_count_eq_one hnd (List.mem_map.mpr ⟨(name, data), hmem, rfl⟩)
    have hle := hsub.count_le name
    have hpos : 0 < List.count name (bucket ed.failure_modes (some c)) :=
      List.count_pos_iff.mpr (List.mem_map.mpr
        ⟨(name, data), List.mem_filter.mpr ⟨hmem, by simp [hcat]⟩, rfl⟩)
    omega

theorem claim6_category_index_exactly_once_witness :
    List.count (some "Communication Failures") (get_all_categories edEx) = 1 ∧
    List.count "Alpha Fail"
      (get_failure_modes_in_category edEx (some "Communication Failures")) = 1 :=
  claim6_category_index_exactly_once edEx "Alpha Fail"
    ⟨some "Communication Failures", some "short a", some "desc a",
      some ["scenario a1", "scenario a2"], some "analysis a",
      some ["tac a"], some []⟩
    "Communication Failures" (by decide) (by decide) (by decide) (by decide)

/-- Claim C10: a record with no `category` field at all is indexed under the
single absent-category (`None`) bucket: construction succeeds, `None`
appears among the categories, the identifier is in the `None` bucket
exactly once, and in no other bucket. -/
theorem claim10_absent_category_bucket (ed : Educator) (name : String)
    (data : ModeData)
    (hnd : (ed.failure_modes.map Prod.fst).Nodup)
    (hmem : (name, data) ∈ ed.failure_modes)
    (hcat : data.category = none) :
    none ∈ get_all_categories ed ∧
    List.count name (get_failure_modes_in_category ed none) = 1 ∧
    (∀ k, name ∈ get_failure_modes_in_category ed k ↔ k = none) := by
  have hhas : hasCat ed.failure_modes none = true :=
    List.any_eq_true.mpr ⟨(name, data), hmem, by simp [hcat]⟩
  refine ⟨mem_keys_organize.mpr hhas, ?_, ?_⟩
  · have hlook : get_failure_modes_in_category ed none =
        bucket ed.failure_modes none := by
      simp [get_failure_modes_in_category, categoriesOf, organize_lookup, hhas]
    rw [hlook]
    have hsub : (bucket ed.failure_modes none).Sublist
        (ed.failure_modes.map Prod.fst) :=
      List.Sublist.map Prod.fst (List.filter_sublist _)
    have h1 : List.count name (ed.failure_modes.map Prod.fst) = 1 :=
      nodup_count_eq_one hnd (List.mem_map.mpr ⟨(name, data), hmem, rfl⟩)
    have hle := hsub.count_le name
    have hpos : 0 < List.count name (bucket ed.failure_modes none) :=
      List.count_pos_iff.mpr (List.mem_map.mpr
        ⟨(name, data), List.mem_filter.mpr ⟨hmem, by simp [hcat]⟩, rfl⟩)
    omega
  · intro k
    constructor
    · intro hk
      rw [show get_failure_modes_in_category ed k =
          (catLookup (organize_categories ed.failure_modes) k).getD [] from rfl,
        organize_lookup] at hk
      by_cases hh : hasCat ed.failure_modes k = true
      · rw [if_pos hh] at hk
        simp only [Option.getD_some] at hk
        obtain ⟨p, hpf, hpn⟩ := List.mem_map.mp
          (show name ∈ (ed.failure_modes.filter fun p =>
            p.2.category = k).map Prod.fst from hk)
        obtain ⟨hpmem, hpcat⟩ := List.mem_filter.mp hpf
        have hpcat' : p.2.category = k := by simpa using hpcat
        have hpair : (name, p.2) ∈ ed.failure_modes := by
          have : p = (name, p.2) := Prod.ext hpn rfl
          exact this ▸ hpmem
        have hdata : p.2 = data := assoc_val_unique hnd hpair hmem
        rw [← hpcat', hdata, hcat]
      · rw [if_neg hh] at hk
        simp at hk
    · intro hk
      subst hk
      rw [show get_failure_modes_in_category ed none =
          (catLookup (organize_categories ed.failure_modes) none).getD [] from rfl,
        organize_lookup, if_pos hhas]
      exact List.mem_map.mpr
        ⟨(name, data), List.mem_filter.mpr ⟨hmem, by simp [hcat]⟩, rfl⟩

theorem claim10_absent_category_bucket_witness :
    none ∈ get_all_categories edNoCat ∧
    List.count "Orphan Fail" (get_failure_modes_in_category edNoCat none) = 1 ∧
    (∀ k, "Orphan Fail" ∈ get_failure_modes_in_category edNoCat k ↔ k = none) :=
  claim10_absent_category_bucket edNoCat "Orphan Fail"
    ⟨none, none, none, none, none, none, none⟩ (by decide) (by decide) (by decide)

/-- Claim C3, amended: `get_recent_queries` returns at most `limit` rows,
newest first by timestamp with timestamp ties in insertion order — id
ASCENDING, not id descending as claimed (SQLite feeds `ORDER BY timestamp
DESC` from the table scan in rowid order and keeps equal keys in scan
order); and after `logQuery("foo")` on an empty log, `recentQueries(1)` is
exactly one entry with query text `"foo"`. -/
theorem claim3_recent_queries_amended (db : DBState) (limit ts : Nat)
    (h : Reachable db) :
    (get_recent_queries db limit).length ≤ limit ∧
    List.Pairwise recentOrder (get_recent_queries db limit) ∧
    get_recent_queries (log_user_query emptyDB "foo" ts).1 1 = [⟨1, "foo", ts⟩] := by
  refine ⟨?_, ?_, rfl⟩
  · show ((sortTsDesc db.user_queries).take limit).length ≤ limit
    rw [List.length_take]
    exact min_le_left _ _
  · exact List.Pairwise.sublist (List.take_sublist _ _)
      (pairwise_sortTsDesc (reachable_inv h).2)

theorem claim3_recent_queries_amended_witness :
    (get_recent_queries dbFoo 1).length ≤ 1 ∧
    List.Pairwise recentOrder (get_recent_queries dbFoo 1) ∧
    get_recent_queries (log_user_query emptyDB "foo" 7).1 1 = [⟨1, "foo", 7⟩] :=
  claim3_recent_queries_amended dbFoo 1 7 (Reachable.logQ "foo" 7 Reachable.empty)

/-- Claim C3 as stated is false: two queries logged in the same second come
back in id-ASCENDING order, not id descending.  `dbTie` logs "a" (id 1)
then "b" (id 2) at the same timestamp; `get_recent_queries dbTie 2` returns
id 1 before id 2, violating the claimed tie-break. -/
theorem claim3_recent_queries_counterexample :
    get_recent_queries dbTie 2 = [⟨1, "a", 5⟩, ⟨2, "b", 5⟩] ∧
    ¬ List.Pairwise
      (fun a b : QueryRow =>
        b.timestamp < a.timestamp ∨ (a.timestamp = b.timestamp ∧ b.id < a.id))
      (get_recent_queries dbTie 2) := by
  constructor
  · rfl
  · decide

/-- Claim C4: `get_most_viewed_failure_modes` groups the view log by
failure-mode name (one pair per distinct name), counts each group, orders
the pairs descending by count and truncates to `limit`; three views of "X"
and one of "Y" rank X above Y with counts 3 and 1. -/
theorem claim4_most_viewed (db : DBState) (limit : Nat) :
    ∃ full,
      get_most_viewed_failure_modes db limit = full.take limit ∧
      List.Pairwise (fun a b => b.2 ≤ a.2) full ∧
      full.Perm ((sortedDedup (db.viewed_failure_modes.map fun v =>
        v.failure_mode)).map fun n => (n, viewCount db.viewed_failure_modes n)) ∧
      (sortedDedup (db.viewed_failure_modes.map fun v => v.failure_mode)).Nodup ∧
      (∀ n, n ∈ sortedDedup (db.viewed_failure_modes.map fun v => v.failure_mode) ↔
        ∃ v ∈ db.viewed_failure_modes, v.failure_mode = n) ∧
      get_most_viewed_failure_modes dbViews 5 = [("X", 3), ("Y", 1)] := by
  refine ⟨_, rfl, pairwise_sortCountDesc _, perm_sortCountDesc _,
    sortedDedup_nodup _, ?_, by decide⟩
  intro n
  rw [sortedDedup_mem]
  simp

/-- Claim C5: `get_solution_feedback_stats` maps each solution type with at
least one non-null rating to the mean of those ratings (a type with no
non-null rating is absent), and maps each failure mode with feedback to the
count of all its feedback entries (null ratings included); on entries
{tactical 4, tactical 2, structural None} the tactical average is 3 and
there is no structural key. -/
theorem claim5_feedback_stats (db : DBState) (t m : String) :
    ((∃ r ∈ db.solution_feedback, r.solution_type = t ∧ r.rating.isSome) →
      lookupStr (get_solution_feedback_stats db).1 t =
        some (((ratingsOfType db t).sum : Rat) / ((ratingsOfType db t).length : Rat))) ∧
    ((¬ ∃ r ∈ db.solution_feedback, r.solution_type = t ∧ r.rating.isSome) →
      lookupStr (get_solution_feedback_stats db).1 t = none) ∧
    ((∃ r ∈ db.solution_feedback, r.failure_mode = m) →
      lookupStr (get_solution_feedback_stats db).2 m = some (feedbackCount db m)) ∧
    lookupStr (get_solution_feedback_stats dbFeedback).1 "tactical" = some 3 ∧
    lookupStr (get_solution_feedback_stats dbFeedback).1 "structural" = none ∧
    lookupStr (get_solution_feedback_stats dbFeedback).2 "M" = some 3 := by
  have hfst : (get_solution_feedback_stats db).1 =
      (sortedDedup ((ratedRows db).map fun r => r.solution_type)).map
        (fun t => (t, avgRatingOfType db t)) := rfl
  have hsnd : (get_solution_feedback_stats db).2 =
      (sortedDedup (db.solution_feedback.map fun r => r.failure_mode)).map
        (fun m => (m, feedbackCount db m)) := rfl
  have htac : lookupStr (get_solution_feedback_stats dbFeedback).1 "tactical" =
      some (avgRatingOfType dbFeedback "tactical") := rfl
  have havg : avgRatingOfType dbFeedback "tactical" = 3 := by
    have hr : ratingsOfType dbFeedback "tactical" = [4, 2] := rfl
    unfold avgRatingOfType
    rw [hr]
    norm_num
  refine ⟨?_, ?_, ?_, by rw [htac, havg], by decide, by decide⟩
  · rintro ⟨r, hr, ht, hrate⟩
    have hmem : t ∈ sortedDedup ((ratedRows db).map fun r => r.solution_type) :=
      sortedDedup_mem.mpr (List.mem_map.mpr
        ⟨r, List.mem_filter.mpr ⟨hr, hrate⟩, ht⟩)
    rw [hfst, lookupStr_map_self, if_pos hmem]
    rfl
  · intro h
    have hmem : t ∉ sortedDedup ((ratedRows db).map fun r => r.solution_type) := by
      intro hc
      obtain ⟨r, hrf, hrt⟩ := List.mem_map.mp (sortedDedup_mem.mp hc)
      obtain ⟨hrfb, hrs⟩ := List.mem_filter.mp hrf
      exact h ⟨r, hrfb, hrt, hrs⟩
    rw [hfst, lookupStr_map_self, if_neg hmem]
  · rintro ⟨r, hr, hm⟩
    have hmem : m ∈ sortedDedup (db.solution_feedback.map fun r => r.failure_mode) :=
      sortedDedup_mem.mpr (List.mem_map.mpr ⟨r, hr, hm⟩)
    rw [hsnd, lookupStr_map_self, if_pos hmem]

theorem claim5_feedback_stats_witness :
    lookupStr (get_solution_feedback_stats dbFeedback).1 "tactical" =
      some (((ratingsOfType dbFeedback "tactical").sum : Rat) /
        ((ratingsOfType dbFeedback "tactical").length : Rat)) ∧
    lookupStr (get_solution_feedback_stats dbFeedback).2 "M" =
      some (feedbackCount dbFeedback "M") := by
  have h := claim5_feedback_stats dbFeedback "tactical" "M"
  exact ⟨h.1 (by decide), h.2.2.1 (by decide)⟩
